import Mathlib

/-!
Shallow embedding of the Liars Dice rules engine (src/dice/lib/game.py).

Conventions of the embedding:
- Python ints are modelled as ℤ (ℕ for list lengths and player ids).
- Python floats are modelled as `Option ℚ`: `none` models NaN (which
  scipy.special.binom produces for a negative integer first argument);
  every other value arising here is an exact rational.
- Mutating methods are modelled by explicit state passing: a method on
  `Game` becomes a function `Game → ... → Except Err α × Game`, where the
  returned `Game` is the state at the moment the method returns or raises
  (Python exceptions do not roll back earlier mutations, so a raising
  method can return a changed state).
- Object references (`current_player`, `previous_player`) are modelled by
  player ids; the process-wide id counter makes ids unique, so mutation
  through a reference is mutation of the list entry with that id.
- Randomness (`randint(1, dice_size)`) is modelled by an explicit supply
  `ℕ → ℤ` together with a cursor index that each roll advances.
-/

/-- Python exception kinds raised by the code under `src/dice/lib/game.py`.
The three GameError raise sites are distinguished; the message strings are
not modelled. `attributeError` models touching an attribute of None,
`indexError` models `list.pop` on an empty list. -/
inductive Err where
  | gameErrorMoreDice
  | gameErrorInvalidFace
  | gameErrorNotBetter
  | attributeError
  | indexError
deriving DecidableEq

/-- True exactly for the rule-violation (GameError) variants. -/
def Err.isGameError : Err → Bool
  | .gameErrorMoreDice => true
  | .gameErrorInvalidFace => true
  | .gameErrorNotBetter => true
  | .attributeError => false
  | .indexError => false

/-- True when an Except value is the error case. -/
def isErr {α : Type} : Except Err α → Bool
  | .error _ => true
  | .ok _ => false

instance {ε α : Type} [DecidableEq ε] [DecidableEq α] : DecidableEq (Except ε α) := fun a b =>
  match a, b with
  | .error e, .error f =>
    if h : e = f then .isTrue (by rw [h]) else .isFalse (by intro hh; injection hh; exact h (by assumption))
  | .error _, .ok _ => .isFalse (by intro hh; exact Except.noConfusion hh)
  | .ok _, .error _ => .isFalse (by intro hh; exact Except.noConfusion hh)
  | .ok x, .ok y =>
    if h : x = y then .isTrue (by rw [h]) else .isFalse (by intro hh; injection hh; exact h (by assumption))

/-- A bet: `amount` dice showing `face` (game.py, class Bet). -/
structure Bet where
  amount : ℤ
  face : ℤ
deriving DecidableEq

/-- Bet.__lt__: Python tuple comparison `(amount, face) < (amount, face)`,
i.e. lexicographic on amount then face. -/
def Bet.lt (a b : Bet) : Bool :=
  decide (a.amount < b.amount ∨ (a.amount = b.amount ∧ a.face < b.face))

/-- One player: id (from the process-wide counter), a name and a hand of
dice values (game.py, class Player). -/
structure Player where
  id : ℕ
  name : String
  dice : List ℤ
deriving DecidableEq

/-- Player.remove_die: `self.dice.pop()` removes the last die; popping an
empty hand raises IndexError. -/
def Player.removeDie (p : Player) : Except Err Player :=
  if p.dice.isEmpty then .error .indexError
  else .ok { p with dice := p.dice.dropLast }

/-- Player.roll: the hand is cleared and refilled with `len(dice)` fresh
rolls taken from the supply at the cursor; returns the rolled player and
the advanced cursor. -/
def Player.rollWith (p : Player) (supply : ℕ → ℤ) (k : ℕ) : Player × ℕ :=
  ({ p with dice := (List.range p.dice.length).map (fun i => supply (k + i)) },
   k + p.dice.length)

/-- Player.lost: a player has lost when the hand is empty. -/
def Player.lost (p : Player) : Bool := p.dice.isEmpty

/-- The whole game state (game.py, class Game). `current_player` and
`previous_player` hold the id of the referenced player (None becomes
`none`). -/
structure Game where
  dice_count : ℕ
  dice_size : ℤ
  players : List Player
  current_bet : Option Bet
  previous_player : Option ℕ
  current_player : Option ℕ
deriving DecidableEq

/-- Game.dice_in_play: sum of the hand sizes of all players. -/
def Game.dice_in_play (g : Game) : ℕ :=
  (g.players.map (fun p => p.dice.length)).sum

/-- Game.all_dice: every die in play, player by player in rotation order. -/
def Game.all_dice (g : Game) : List ℤ :=
  (g.players.map Player.dice).flatten

/-- Game.game_over: true when exactly one player is left. -/
def Game.game_over (g : Game) : Bool :=
  decide (g.players.length = 1)

/-- Game.check_bet on a non-None bet: the pool holds at least `amount`
dice showing `face`. (The call sites handle the None case, where Python
raises AttributeError evaluating `bet.face`.) -/
def Game.check_bet (g : Game) (bet : Bet) : Bool :=
  decide (bet.amount ≤ ((g.all_dice.count bet.face : ℕ) : ℤ))

/-- Game.check_spot_on on a non-None bet: the pool holds exactly `amount`
dice showing `face`. -/
def Game.check_spot_on (g : Game) (bet : Bet) : Bool :=
  decide (((g.all_dice.count bet.face : ℕ) : ℤ) = bet.amount)

/-- scipy.special.binom restricted to the integer arguments this program
passes: NaN (here `none`) for a negative integer first argument, 0 outside
`0 ≤ k ≤ n`, and the binomial coefficient inside. -/
def scipyBinom (n k : ℤ) : Option ℚ :=
  if n < 0 then none
  else if k < 0 ∨ n < k then some 0
  else some (Nat.choose n.toNat k.toNat : ℚ)

/-- Game.spot_on_equation: subtract the known dice from the claimed count
and from the pool size, then take the binomial mass
`binom(n, q) * (1/s)^q * ((s-1)/s)^(n-q)`. NaN propagates through the
products. -/
def Game.spot_on_equation (g : Game) (die_face dice_amount dice_in_play : ℤ)
    (known_dice : List ℤ := []) : Option ℚ :=
  let dice_amount := dice_amount - (known_dice.count die_face : ℕ)
  let dice_in_play := dice_in_play - (known_dice.length : ℕ)
  let q := dice_amount
  let n := dice_in_play
  let c := scipyBinom n q
  c.map (fun cv =>
    cv * ((1 / (g.dice_size : ℚ)) ^ q)
       * ((((g.dice_size : ℚ) - 1) / (g.dice_size : ℚ)) ^ (n - q)))

/-- Python `range(a, b)` as a list of integers. -/
def intRange (a b : ℤ) : List ℤ :=
  (List.range (b - a).toNat).map (fun i => a + (i : ℤ))

/-- Python `sum` over a list of floats, starting from 0; NaN in any
summand makes the sum NaN. -/
def pySum (l : List (Option ℚ)) : Option ℚ :=
  l.foldl (fun acc x =>
    match acc, x with
    | some a, some b => some (a + b)
    | _, _ => none) (some 0)

/-- Game.bet_equation: adjust count and pool once for the known dice, then
sum `spot_on_equation(face, i, adjusted_pool)` (with the default empty
known-dice list) for i from the adjusted count to the adjusted pool
inclusive. -/
def Game.bet_equation (g : Game) (die_face dice_amount dice_in_play : ℤ)
    (known_dice : List ℤ := []) : Option ℚ :=
  let dice_amount := dice_amount - (known_dice.count die_face : ℕ)
  let dice_in_play := dice_in_play - (known_dice.length : ℕ)
  pySum ((intRange dice_amount (dice_in_play + 1)).map
    (fun i => g.spot_on_equation die_face i dice_in_play))

/-- State-passing translation of Game.spot_on_equation, statement by
statement: the two augmented assignments rebind parameters (locals), the
remaining statements only read `self.dice_size` and the list, so the
returned state is the incoming `Game` and known-dice list. -/
def Game.spot_on_equation_run (g : Game) (die_face dice_amount dice_in_play : ℤ)
    (known_dice : List ℤ) : Option ℚ × Game × List ℤ :=
  let dice_amount := dice_amount - (known_dice.count die_face : ℕ)
  let dice_in_play := dice_in_play - (known_dice.length : ℕ)
  let q := dice_amount
  let n := dice_in_play
  let c := scipyBinom n q
  (c.map (fun cv =>
    cv * ((1 / (g.dice_size : ℚ)) ^ q)
       * ((((g.dice_size : ℚ) - 1) / (g.dice_size : ℚ)) ^ (n - q))), g, known_dice)

/-- State-passing translation of Game.bet_equation: each comprehension
step calls the run version of spot_on_equation on the current state (which
it returns unchanged); the shared default `[]` list is read only. -/
def Game.bet_equation_run (g : Game) (die_face dice_amount dice_in_play : ℤ)
    (known_dice : List ℤ) : Option ℚ × Game × List ℤ :=
  let dice_amount := dice_amount - (known_dice.count die_face : ℕ)
  let dice_in_play := dice_in_play - (known_dice.length : ℕ)
  (pySum ((intRange dice_amount (dice_in_play + 1)).map
    (fun i => (g.spot_on_equation_run die_face i dice_in_play []).1)), g, known_dice)

/-- `self.current_player.remove_die()` through an id reference: pop one
die from the (unique) player carrying that id; IndexError if that hand is
empty; a dangling id (no such player in the rotation) touches no list
entry. -/
def removeDieById : List Player → ℕ → Except Err (List Player)
  | [], _ => .ok []
  | p :: rest, pid =>
    if p.id = pid then
      match p.removeDie with
      | .error e => .error e
      | .ok p2 => .ok (p2 :: rest)
    else
      match removeDieById rest pid with
      | .error e => .error e
      | .ok rest2 => .ok (p :: rest2)

/-- The test `p != self.current_player` negated: true when p is the
referenced current player (object identity, i.e. id equality under the
unique-id counter); a None current player equals no player. -/
def isCurrent (c : Option ℕ) (p : Player) : Bool :=
  match c with
  | some cid => p.id == cid
  | none => false

/-- The loop of Game.call_spot_on: `for p in players: if p != current:
p.remove_die()`. Mutation is in place and an IndexError stops the loop,
so the result carries the partially mutated list next to the error.
Comparing with a None current player is never equal, so everyone loses a
die in that case, as in Python. -/
def removeDieAllExcept : List Player → Option ℕ → Option Err × List Player
  | [], _ => (none, [])
  | p :: rest, c =>
    if isCurrent c p then
      let r := removeDieAllExcept rest c
      (r.1, p :: r.2)
    else
      match p.removeDie with
      | .error e => (some e, p :: rest)
      | .ok p2 =>
        let r := removeDieAllExcept rest c
        (r.1, p2 :: r.2)

/-- Roll every player in rotation order, threading the supply cursor. -/
def rollAll : List Player → (ℕ → ℤ) → ℕ → List Player × ℕ
  | [], _, k => ([], k)
  | p :: rest, supply, k =>
    let r := p.rollWith supply k
    let r2 := rollAll rest supply r.2
    (r.1 :: r2.1, r2.2)

/-- Game.reset: reroll every player and clear the current bet. -/
def Game.reset (g : Game) (supply : ℕ → ℤ) (k : ℕ) : Game × ℕ :=
  let r := rollAll g.players supply k
  ({ g with players := r.1, current_bet := none }, r.2)

/-- Game.next_player: `previous_player = current_player` runs first; then
`players.pop(0)` raises IndexError on an empty rotation (with the
previous-player write already applied); otherwise the front player moves
to the back and becomes current. -/
def Game.next_player (g : Game) : Except Err Player × Game :=
  match g.players with
  | [] => (.error .indexError, { g with previous_player := g.current_player })
  | p :: rest =>
    (.ok p, { g with previous_player := g.current_player,
                     players := rest ++ [p], current_player := some p.id })

/-- Game.setup: reroll everyone, clear the three state fields, then
advance to the first player. -/
def Game.setup (g : Game) (supply : ℕ → ℤ) (k : ℕ) : Except Err Player × Game × ℕ :=
  let r := rollAll g.players supply k
  let g1 := { g with players := r.1, current_player := none,
                     previous_player := none, current_bet := none }
  let r2 := g1.next_player
  (r2.1, r2.2, r.2)

/-- Game.remove_lost_players: collect the players with empty hands, then
remove each from the rotation (ids are unique, so removing by equality is
removing that entry); returns the removed players. -/
def Game.remove_lost_players (g : Game) : List Player × Game :=
  let lost := g.players.filter (fun p => p.lost)
  (lost, { g with players := g.players.filter (fun p => !p.lost) })

/-- Game.first_bet: range checks in source order; on success the bet
becomes current (no comparison with a prior bet). -/
def Game.first_bet (g : Game) (bet : Bet) : Except Err Unit × Game :=
  if ((g.dice_in_play : ℕ) : ℤ) < bet.amount then (.error .gameErrorMoreDice, g)
  else if g.dice_size < bet.face ∨ bet.face < 1 then (.error .gameErrorInvalidFace, g)
  else (.ok (), { g with current_bet := some bet })

/-- Game.place_bet: the same range checks, then the new bet must strictly
exceed the current one on (amount, face); reading `current_bet.amount`
with no current bet raises AttributeError. -/
def Game.place_bet (g : Game) (bet : Bet) : Except Err Unit × Game :=
  if ((g.dice_in_play : ℕ) : ℤ) < bet.amount then (.error .gameErrorMoreDice, g)
  else if g.dice_size < bet.face ∨ bet.face < 1 then (.error .gameErrorInvalidFace, g)
  else
    match g.current_bet with
    | none => (.error .attributeError, g)
    | some cur =>
      if cur.amount < bet.amount ∨ (bet.amount = cur.amount ∧ cur.face < bet.face) then
        (.ok (), { g with current_bet := some bet })
      else
        (.error .gameErrorNotBetter, g)

/-- Game.call_bluff: check the bet against the pool (AttributeError when
there is no current bet), remove one die from the challenger when the bet
held, from the better otherwise, then reset; returns True exactly when the
challenger was right. -/
def Game.call_bluff (g : Game) (supply : ℕ → ℤ) (k : ℕ) :
    Except Err Bool × Game × ℕ :=
  match g.current_bet with
  | none => (.error .attributeError, g, k)
  | some bet =>
    if g.check_bet bet then
      match g.current_player with
      | none => (.error .attributeError, g, k)
      | some cid =>
        match removeDieById g.players cid with
        | .error e => (.error e, g, k)
        | .ok ps =>
          let r := Game.reset { g with players := ps } supply k
          (.ok false, r.1, r.2)
    else
      match g.previous_player with
      | none => (.error .attributeError, g, k)
      | some pid =>
        match removeDieById g.players pid with
        | .error e => (.error e, g, k)
        | .ok ps =>
          let r := Game.reset { g with players := ps } supply k
          (.ok true, r.1, r.2)

/-- Game.call_spot_on: when the pool count is exactly the bet amount every
player other than the current one loses a die (an IndexError mid-loop
leaves the earlier removals applied); otherwise the current player loses
one die; then reset. Returns True exactly on the exact match. -/
def Game.call_spot_on (g : Game) (supply : ℕ → ℤ) (k : ℕ) :
    Except Err Bool × Game × ℕ :=
  match g.current_bet with
  | none => (.error .attributeError, g, k)
  | some bet =>
    if g.check_spot_on bet then
      match removeDieAllExcept g.players g.current_player with
      | (some e, ps) => (.error e, { g with players := ps }, k)
      | (none, ps) =>
        let r := Game.reset { g with players := ps } supply k
        (.ok true, r.1, r.2)
    else
      match g.current_player with
      | none => (.error .attributeError, g, k)
      | some cid =>
        match removeDieById g.players cid with
        | .error e => (.error e, g, k)
        | .ok ps =>
          let r := Game.reset { g with players := ps } supply k
          (.ok false, r.1, r.2)

/-- The (id, hand size) profile of a rotation, the shape the resolution
claims talk about. -/
def idLens (ps : List Player) : List (ℕ × ℕ) :=
  ps.map (fun p => (p.id, p.dice.length))

/-- How many pooled dice show face f. -/
def Game.countFace (g : Game) (f : ℤ) : ℕ :=
  g.all_dice.count f

/-! ### Helper definitions and lemmas about the mutation primitives -/

/-- Pointwise description of removing one die from the player with a given
id (meaningful when ids are unique, as the process-wide counter makes
them). -/
def mapRemoveDie (ps : List Player) (pid : ℕ) : List Player :=
  ps.map (fun p => if p.id = pid then { p with dice := p.dice.dropLast } else p)

/-- Pointwise description of the spot-on reward loop: everybody but the
referenced player loses a die. -/
def mapRemoveExcept (ps : List Player) (c : Option ℕ) : List Player :=
  ps.map (fun p =>
    if isCurrent c p then p
    else { p with dice := p.dice.dropLast })

theorem idLens_rollAll (ps : List Player) (s : ℕ → ℤ) (k : ℕ) :
    idLens (rollAll ps s k).1 = idLens ps := by
  induction ps generalizing k with
  | nil => rfl
  | cons p rest ih =>
    simp [rollAll, idLens, Player.rollWith] at *
    exact ih _

theorem removeDieById_not_mem (ps : List Player) (pid : ℕ)
    (h : pid ∉ ps.map Player.id) : removeDieById ps pid = .ok ps := by
  induction ps with
  | nil => rfl
  | cons p rest ih =>
    simp only [List.map_cons, List.mem_cons] at h
    push_neg at h
    simp only [removeDieById]
    rw [if_neg (fun hh => h.1 hh.symm), ih h.2]

theorem mapRemoveDie_not_mem (ps : List Player) (pid : ℕ)
    (h : pid ∉ ps.map Player.id) : mapRemoveDie ps pid = ps := by
  induction ps with
  | nil => rfl
  | cons p rest ih =>
    simp only [List.map_cons, List.mem_cons] at h
    push_neg at h
    simp only [mapRemoveDie, List.map_cons] at *
    rw [if_neg (fun hh => h.1 hh.symm), ih h.2]

theorem removeDieById_eq (ps : List Player) (pid : ℕ)
    (hpw : ps.Pairwise (fun a b => a.id ≠ b.id))
    (hne : ∀ p ∈ ps, p.dice ≠ []) :
    removeDieById ps pid = .ok (mapRemoveDie ps pid) := by
  induction ps with
  | nil => rfl
  | cons p rest ih =>
    rw [List.pairwise_cons] at hpw
    by_cases hid : p.id = pid
    · have hrest : pid ∉ rest.map Player.id := by
        intro hmem
        obtain ⟨q, hq, hqid⟩ := List.mem_map.mp hmem
        exact (hpw.1 q hq) (hid.trans hqid.symm)
      have hpd : ¬ p.dice.isEmpty := by
        simpa [List.isEmpty_iff] using hne p (List.mem_cons_self p rest)
      simp only [removeDieById, mapRemoveDie, List.map_cons, if_pos hid,
        Player.removeDie, hpd]
      rw [if_neg (Bool.false_ne_true)]
      rw [show rest.map (fun p => if p.id = pid then
        { p with dice := p.dice.dropLast } else p) = rest from
        mapRemoveDie_not_mem rest pid hrest]
    · simp only [removeDieById, mapRemoveDie, List.map_cons, if_neg hid]
      rw [show removeDieById rest pid = .ok (mapRemoveDie rest pid) from
        ih hpw.2 (fun q hq => hne q (List.mem_cons_of_mem p hq))]
      rfl

theorem removeDieById_ok (ps : List Player) (pid : ℕ)
    (hne : ∀ p ∈ ps, p.dice ≠ []) :
    ∃ qs, removeDieById ps pid = .ok qs := by
  induction ps with
  | nil => exact ⟨[], rfl⟩
  | cons p rest ih =>
    by_cases hid : p.id = pid
    · have hpd : ¬ p.dice.isEmpty := by
        simpa [List.isEmpty_iff] using hne p (List.mem_cons_self p rest)
      refine ⟨{ p with dice := p.dice.dropLast } :: rest, ?_⟩
      simp only [removeDieById, if_pos hid, Player.removeDie]
      rw [if_neg hpd]
    · obtain ⟨qs, hqs⟩ := ih (fun q hq => hne q (List.mem_cons_of_mem p hq))
      refine ⟨p :: qs, ?_⟩
      simp only [removeDieById, if_neg hid, hqs]

theorem removeDieAllExcept_eq (ps : List Player) (c : Option ℕ)
    (hne : ∀ p ∈ ps, p.dice ≠ []) :
    removeDieAllExcept ps c = (none, mapRemoveExcept ps c) := by
  induction ps with
  | nil => rfl
  | cons p rest ih =>
    have hrest := ih (fun q hq => hne q (List.mem_cons_of_mem p hq))
    by_cases hc : isCurrent c p = true
    · simp only [removeDieAllExcept, mapRemoveExcept, List.map_cons, if_pos hc, hrest]
    · have hpd : ¬ p.dice.isEmpty := by
        simpa [List.isEmpty_iff] using hne p (List.mem_cons_self p rest)
      simp only [removeDieAllExcept, mapRemoveExcept, List.map_cons, if_neg hc,
        Player.removeDie]
      rw [if_neg hpd]
      simp only [hrest]
      rfl

theorem idLens_mapRemoveDie (ps : List Player) (pid : ℕ) :
    idLens (mapRemoveDie ps pid) =
      ps.map (fun p => (p.id, if p.id = pid then p.dice.length - 1 else p.dice.length)) := by
  simp only [idLens, mapRemoveDie, List.map_map]
  refine List.map_congr_left (fun p _ => ?_)
  by_cases hid : p.id = pid
  · simp [hid, List.length_dropLast]
  · simp [hid]

theorem idLens_mapRemoveExcept (ps : List Player) (cid : ℕ) :
    idLens (mapRemoveExcept ps (some cid)) =
      ps.map (fun p => (p.id, if p.id = cid then p.dice.length else p.dice.length - 1)) := by
  simp only [idLens, mapRemoveExcept, List.map_map]
  refine List.map_congr_left (fun p _ => ?_)
  by_cases hid : p.id = cid
  · simp [hid, isCurrent]
  · simp [hid, isCurrent, List.length_dropLast]

theorem sum_lens_remove (ps : List Player) (pid : ℕ)
    (hpw : ps.Pairwise (fun a b => a.id ≠ b.id))
    (hmem : pid ∈ ps.map Player.id)
    (hne : ∀ p ∈ ps, p.dice ≠ []) :
    (ps.map (fun p => if p.id = pid then p.dice.length - 1 else p.dice.length)).sum =
      (ps.map (fun p => p.dice.length)).sum - 1 := by
  induction ps with
  | nil => simp at hmem
  | cons p rest ih =>
    rw [List.pairwise_cons] at hpw
    by_cases hid : p.id = pid
    · have hrest : ∀ q ∈ rest, (if q.id = pid then q.dice.length - 1 else q.dice.length) = q.dice.length := by
        intro q hq
        rw [if_neg (fun hh => (hpw.1 q hq) (hid.trans hh.symm))]
      have hlen : 1 ≤ p.dice.length := by
        have := hne p (List.mem_cons_self p rest)
        cases hd : p.dice with
        | nil => exact absurd hd this
        | cons a l => simp [hd]
      simp only [List.map_cons, List.sum_cons, if_pos hid,
        List.map_congr_left hrest]
      omega
    · have hmem2 : pid ∈ rest.map Player.id := by
        simp only [List.map_cons, List.mem_cons] at hmem
        rcases hmem with h | h
        · exact absurd h.symm hid
        · exact h
      have := ih hpw.2 hmem2 (fun q hq => hne q (List.mem_cons_of_mem p hq))
      have hsum : 1 ≤ (rest.map (fun p => p.dice.length)).sum := by
        obtain ⟨q, hq, hqid⟩ := List.mem_map.mp hmem2
        have hql : 1 ≤ q.dice.length := by
          have := hne q (List.mem_cons_of_mem p hq)
          cases hd : q.dice with
          | nil => exact absurd hd this
          | cons a l => simp [hd]
        calc 1 ≤ q.dice.length := hql
        _ ≤ (rest.map (fun p => p.dice.length)).sum :=
          List.single_le_sum (fun _ _ => Nat.zero_le _) _ (List.mem_map_of_mem _ hq)
      simp only [List.map_cons, List.sum_cons, if_neg hid, this]
      omega

theorem dip_eq_sum (g : Game) :
    g.dice_in_play = ((idLens g.players).map Prod.snd).sum := by
  simp only [Game.dice_in_play, idLens, List.map_map]
  exact congrArg List.sum (List.map_congr_left (fun p _ => rfl))

/-! ### The spec probability formulas (written from the words of the spec,
to be compared with the code) -/

/-- The combinatorial binomial coefficient on integers: the count of ways
to choose q of m, zero outside 0 ≤ q ≤ m. -/
def specChoose (m q : ℤ) : ℚ :=
  if 0 ≤ q ∧ q ≤ m then (Nat.choose m.toNat q.toNat : ℚ) else 0

/-- Spec 4.6: the binomial probability mass, choose q of the m unknown
dice to show the face, each unknown die showing it with probability
1/dice_size. -/
def specBinomMass (s q m : ℤ) : ℚ :=
  specChoose m q * ((1 / (s : ℚ)) ^ q) * ((((s : ℚ) - 1) / (s : ℚ)) ^ (m - q))

/-- Spec 4.6: the at-least probability, the sum of the spot-on mass over
all counts from q to m inclusive. -/
def specAtLeast (s q m : ℤ) : ℚ :=
  ((intRange q (m + 1)).map (fun i => specBinomMass s i m)).sum

theorem scipyBinom_eq_specChoose (m q : ℤ) (hm : 0 ≤ m) :
    scipyBinom m q = some (specChoose m q) := by
  unfold scipyBinom specChoose
  rw [if_neg (not_lt.mpr hm)]
  by_cases h1 : q < 0 ∨ m < q
  · rw [if_pos h1, if_neg (by omega)]
  · rw [if_neg h1, if_pos (by omega)]

theorem spotOn_eq_mass (g : Game) (f k n : ℤ) (kd : List ℤ)
    (hm : (kd.length : ℤ) ≤ n) :
    g.spot_on_equation f k n kd =
      some (specBinomMass g.dice_size (k - kd.count f) (n - kd.length)) := by
  simp only [Game.spot_on_equation]
  rw [scipyBinom_eq_specChoose _ _ (by omega)]
  simp [specBinomMass]

theorem specBinomMass_eq_zero (s q m : ℤ) (h : q < 0 ∨ m < q) :
    specBinomMass s q m = 0 := by
  unfold specBinomMass specChoose
  rw [if_neg (by omega)]
  ring

theorem pySum_somes (l : List ℚ) : pySum (l.map some) = some l.sum := by
  have key : ∀ (xs : List ℚ) (a : ℚ),
      List.foldl (fun acc x =>
        match acc, x with
        | some a, some b => some (a + b)
        | _, _ => none) (some a) (xs.map some) = some (a + xs.sum) := by
    intro xs
    induction xs with
    | nil => intro a; simp
    | cons x rest ih =>
      intro a
      simp only [List.map_cons, List.foldl_cons, List.sum_cons]
      exact (ih (a + x)).trans (by rw [add_assoc])
  simpa [pySum] using key l 0

theorem betEq_eq_specAtLeast (g : Game) (f k n : ℤ) (kd : List ℤ)
    (hm : (kd.length : ℤ) ≤ n) :
    g.bet_equation f k n kd =
      some (specAtLeast g.dice_size (k - kd.count f) (n - kd.length)) := by
  simp only [Game.bet_equation]
  rw [List.map_congr_left (fun i _ => spotOn_eq_mass g f i (n - kd.length) []
    (by simp; omega))]
  simp only [List.count_nil, List.length_nil, Nat.cast_zero, sub_zero]
  rw [show (intRange (k - (kd.count f : ℕ)) ((n - (kd.length : ℕ)) + 1)).map
      (fun i => some (specBinomMass g.dice_size i (n - (kd.length : ℕ)))) =
      ((intRange (k - (kd.count f : ℕ)) ((n - (kd.length : ℕ)) + 1)).map
      (fun i => specBinomMass g.dice_size i (n - (kd.length : ℕ)))).map some from
    (List.map_map _ _ _).symm]
  rw [pySum_somes]
  rfl

/-! ### Concrete fixtures used by witnesses and counterexamples -/

/-- A deterministic supply of rolls: every roll comes up 1. -/
def supplyOne : ℕ → ℤ := fun _ => 1

/-- Two players, no bet yet. -/
def gEmptyBet : Game := ⟨5, 6, [⟨0, "A", [1, 2]⟩, ⟨1, "B", [3, 4]⟩], none, none, none⟩

/-- Two players with an active bet of two 3s; the current player is B. -/
def gBets : Game := ⟨5, 6, [⟨0, "A", [2, 3]⟩, ⟨1, "B", [5, 5]⟩], some ⟨2, 3⟩, none, some 1⟩

/-- Two players, pool [3,3,3,4], bet two 3s, current B, previous A. -/
def gBluff : Game := ⟨5, 6, [⟨0, "A", [3, 3]⟩, ⟨1, "B", [3, 4]⟩], some ⟨2, 3⟩, some 0, some 1⟩

/-- Three players with one die each, pool [2,5,6], bet one 2, current A. -/
def gSpot : Game := ⟨5, 6, [⟨0, "A", [2]⟩, ⟨1, "B", [5]⟩, ⟨2, "C", [6]⟩], some ⟨1, 2⟩, some 2, some 0⟩

/-- A playerless game used for the probability queries (dice_size 6). -/
def gProb : Game := ⟨5, 6, [], none, none, none⟩

/-- Current player A, another player with an empty hand further down the
rotation, and a spot-on bet (one 2 against pool [1,2]). -/
def gPartial : Game := ⟨5, 6, [⟨0, "A", [1]⟩, ⟨1, "B", [2]⟩, ⟨2, "C", []⟩], some ⟨1, 2⟩, none, some 0⟩

/-! ### The claims -/

/-- C3 (amended): first_bet and place_bet reject, with a GameError and no
state change, any bet whose face lies outside [1, dice_size] or whose
amount exceeds dice_in_play; the lower bound on amount is not enforced, so
a bet with amount 0 or negative passes the checks (first_bet then makes it
current_bet). -/
theorem c3_bet_range_checks (g : Game) (bet : Bet) :
    (((g.dice_in_play : ℤ) < bet.amount →
        g.first_bet bet = (.error .gameErrorMoreDice, g) ∧
        g.place_bet bet = (.error .gameErrorMoreDice, g)) ∧
     (bet.amount ≤ (g.dice_in_play : ℤ) → (g.dice_size < bet.face ∨ bet.face < 1) →
        g.first_bet bet = (.error .gameErrorInvalidFace, g) ∧
        g.place_bet bet = (.error .gameErrorInvalidFace, g)) ∧
     (bet.amount ≤ (g.dice_in_play : ℤ) → 1 ≤ bet.face → bet.face ≤ g.dice_size →
        g.first_bet bet = (.ok (), { g with current_bet := some bet }))) := by
  refine ⟨fun h => ⟨?_, ?_⟩, fun h1 h2 => ⟨?_, ?_⟩, fun h1 h2 h3 => ?_⟩
  · simp only [Game.first_bet]
    rw [if_pos h]
  · simp only [Game.place_bet]
    rw [if_pos h]
  · simp only [Game.first_bet]
    rw [if_neg (by omega), if_pos h2]
  · simp only [Game.place_bet]
    rw [if_neg (by omega), if_pos h2]
  · simp only [Game.first_bet]
    rw [if_neg (by omega), if_neg (by omega)]

/-- C3 witness: a legal first bet is stored. -/
theorem c3_bet_range_checks_witness :
    gBets.first_bet ⟨2, 4⟩ = (.ok (), { gBets with current_bet := some ⟨2, 4⟩ }) :=
  (c3_bet_range_checks gBets ⟨2, 4⟩).2.2 (by decide) (by decide) (by decide)

/-- C3 counterexample: a bet of amount 0 (outside [1, dice_in_play]) is
accepted by first_bet and becomes the current bet, where the claim demands
rejection. -/
theorem c3_zero_amount_accepted :
    gBets.first_bet ⟨0, 1⟩ = (.ok (), { gBets with current_bet := some ⟨0, 1⟩ }) ∧
    isErr (gBets.first_bet ⟨0, 1⟩).1 = false := by
  constructor
  · rfl
  · rfl

/-- C4 (amended): resolving a challenge with no active bet fails and
leaves the state unchanged, but with an AttributeError (evaluating an
attribute of None), not the GameError rule-violation kind used for illegal
bets. -/
theorem c4_challenge_requires_bet (g : Game) (supply : ℕ → ℤ) (k : ℕ)
    (h : g.current_bet = none) :
    g.call_bluff supply k = (.error .attributeError, g, k) ∧
    g.call_spot_on supply k = (.error .attributeError, g, k) ∧
    Err.isGameError .attributeError = false := by
  refine ⟨?_, ?_, rfl⟩
  · simp only [Game.call_bluff, h]
  · simp only [Game.call_spot_on, h]

/-- C4 witness: the theorem applied to a betless game. -/
theorem c4_challenge_requires_bet_witness :
    gEmptyBet.call_bluff supplyOne 0 = (.error .attributeError, gEmptyBet, 0) ∧
    gEmptyBet.call_spot_on supplyOne 0 = (.error .attributeError, gEmptyBet, 0) ∧
    Err.isGameError .attributeError = false :=
  c4_challenge_requires_bet gEmptyBet supplyOne 0 rfl

/-- C4 counterexample: with no active bet both challenges raise, but the
raised error is not of the GameError kind used for illegal bets, so the
claim that the same error kind is raised is false. -/
theorem c4_wrong_error_kind :
    (gEmptyBet.call_bluff supplyOne 0).1 = .error .attributeError ∧
    (gEmptyBet.call_spot_on supplyOne 0).1 = .error .attributeError ∧
    (∀ e : Err, (gEmptyBet.call_bluff supplyOne 0).1 = .error e →
      Err.isGameError e = false) := by
  refine ⟨rfl, rfl, ?_⟩
  intro e he
  have h2 : Except.error (α := Bool) Err.attributeError = Except.error e := he
  injection h2 with h3
  subst h3
  rfl

theorem dip_set_bet (g : Game) (b : Option Bet) :
    ({ g with current_bet := b } : Game).dice_in_play = g.dice_in_play := rfl

/-- C5 (confirmed): for range-passing bets b1 strictly below b2 in the
(amount, face) ordering, place_bet accepts b2 over b1 and rejects b1 over
b2; a bet equal to the current one is rejected; in general a range-passing
bet is accepted exactly when it strictly exceeds the current bet. -/
theorem c5_place_bet_ordering (g : Game) (b1 b2 : Bet)
    (h1a : b1.amount ≤ (g.dice_in_play : ℤ)) (h1f : 1 ≤ b1.face) (h1s : b1.face ≤ g.dice_size)
    (h2a : b2.amount ≤ (g.dice_in_play : ℤ)) (h2f : 1 ≤ b2.face) (h2s : b2.face ≤ g.dice_size)
    (hlt : Bet.lt b1 b2 = true) :
    ({ g with current_bet := some b1 } : Game).place_bet b2 =
      (.ok (), { g with current_bet := some b2 }) ∧
    ({ g with current_bet := some b2 } : Game).place_bet b1 =
      (.error .gameErrorNotBetter, { g with current_bet := some b2 }) ∧
    ({ g with current_bet := some b2 } : Game).place_bet b2 =
      (.error .gameErrorNotBetter, { g with current_bet := some b2 }) ∧
    (∀ b cur : Bet, b.amount ≤ (g.dice_in_play : ℤ) → 1 ≤ b.face → b.face ≤ g.dice_size →
      ((({ g with current_bet := some cur } : Game).place_bet b).1 = .ok () ↔
        Bet.lt cur b = true)) := by
  simp only [Bet.lt, decide_eq_true_eq] at hlt
  refine ⟨?_, ?_, ?_, ?_⟩
  · simp only [Game.place_bet, dip_set_bet]
    rw [if_neg (by omega), if_neg (by omega), if_pos (by omega)]
  · simp only [Game.place_bet, dip_set_bet]
    rw [if_neg (by omega), if_neg (by omega), if_neg (by omega)]
  · simp only [Game.place_bet, dip_set_bet]
    rw [if_neg (by omega), if_neg (by omega), if_neg (by omega)]
  · intro b cur hba hbf hbs
    simp only [Game.place_bet, dip_set_bet]
    rw [if_neg (by omega), if_neg (by omega)]
    by_cases hacc : cur.amount < b.amount ∨ (b.amount = cur.amount ∧ cur.face < b.face)
    · rw [if_pos hacc]
      simp only [Bet.lt, decide_eq_true_eq]
      exact ⟨fun _ => by omega, fun _ => trivial⟩
    · rw [if_neg hacc]
      constructor
      · intro h
        exact absurd h (by simp)
      · intro h2
        simp only [Bet.lt, decide_eq_true_eq] at h2
        omega

/-- C5 witness: raising the face at equal amount is accepted over the
stored bet. -/
theorem c5_place_bet_ordering_witness :
    ({ gBets with current_bet := some ⟨2, 3⟩ } : Game).place_bet ⟨2, 4⟩ =
      (.ok (), { gBets with current_bet := some ⟨2, 4⟩ }) :=
  (c5_place_bet_ordering gBets ⟨2, 3⟩ ⟨2, 4⟩ (by decide) (by decide) (by decide)
    (by decide) (by decide) (by decide) (by decide)).1

/-- C8 (confirmed): next_player moves the front player to the back of the
rotation (a permutation that keeps the order of the others), makes it the
current player, makes the old current player the previous player, and
returns it. -/
theorem c8_next_player_rotates (g : Game) (p : Player) (rest : List Player)
    (h : g.players = p :: rest) :
    g.next_player = (.ok p,
      { g with players := rest ++ [p], previous_player := g.current_player,
               current_player := some p.id }) ∧
    (g.next_player).2.players.Perm g.players := by
  constructor
  · simp only [Game.next_player, h]
  · simp only [Game.next_player, h]
    exact List.perm_append_singleton p rest

/-- C8 witness: the two-player fixture rotates from A to B. -/
theorem c8_next_player_rotates_witness :
    gBets.next_player = (.ok ⟨0, "A", [2, 3]⟩,
      { gBets with players := [⟨1, "B", [5, 5]⟩, ⟨0, "A", [2, 3]⟩],
                   previous_player := gBets.current_player,
                   current_player := some 0 }) :=
  (c8_next_player_rotates gBets ⟨0, "A", [2, 3]⟩ [⟨1, "B", [5, 5]⟩] rfl).1

/-- C10 (confirmed): the probability queries are pure: the state-passing
translations return the Game and the known-dice list unchanged together
with the value of the pure functions, and the value depends on the Game
only through dice_size, so two calls with the same dice_size and arguments
agree. -/
theorem c10_probability_queries_pure (g g2 : Game) (f k n : ℤ) (kd : List ℤ)
    (hsize : g.dice_size = g2.dice_size) :
    g.spot_on_equation_run f k n kd = (g.spot_on_equation f k n kd, g, kd) ∧
    g.bet_equation_run f k n kd = (g.bet_equation f k n kd, g, kd) ∧
    g.spot_on_equation f k n kd = g2.spot_on_equation f k n kd ∧
    g.bet_equation f k n kd = g2.bet_equation f k n kd := by
  refine ⟨rfl, rfl, ?_, ?_⟩
  · simp only [Game.spot_on_equation, hsize]
  · simp only [Game.bet_equation, Game.spot_on_equation, hsize]

/-- C10 witness: two different game states with the same dice_size give
identical probability answers, and the run translations change nothing. -/
theorem c10_probability_queries_pure_witness :
    gProb.spot_on_equation_run 2 1 3 [2, 5] = (gProb.spot_on_equation 2 1 3 [2, 5], gProb, [2, 5]) ∧
    gProb.bet_equation_run 2 1 3 [2, 5] = (gProb.bet_equation 2 1 3 [2, 5], gProb, [2, 5]) ∧
    gProb.spot_on_equation 2 1 3 [2, 5] = gBets.spot_on_equation 2 1 3 [2, 5] ∧
    gProb.bet_equation 2 1 3 [2, 5] = gBets.bet_equation 2 1 3 [2, 5] :=
  c10_probability_queries_pure gProb gBets 2 1 3 [2, 5] rfl

/-- C6 (amended): provided the known-dice list is no longer than the pool
(the adjusted pool m is nonnegative), the spot-on probability equals the
spec binomial mass C(m,q) (1/s)^q ((s-1)/s)^(m-q) with q and m the
adjusted count and pool; it is 0 whenever q is negative or exceeds m; and
with an empty known list and zero count and pool it is 1. When the known
list is longer than the pool the code returns NaN instead (see the
counterexample), so the nonnegativity proviso is necessary. -/
theorem c6_spot_on_probability (g : Game) (f k n : ℤ) (kd : List ℤ)
    (_hs : 2 ≤ g.dice_size) (hm : (kd.length : ℤ) ≤ n) :
    g.spot_on_equation f k n kd =
      some (specBinomMass g.dice_size (k - kd.count f) (n - kd.length)) ∧
    ((k - (kd.count f : ℕ) : ℤ) < 0 ∨ (n - (kd.length : ℕ) : ℤ) < k - (kd.count f : ℕ) →
      g.spot_on_equation f k n kd = some 0) ∧
    g.spot_on_equation f 0 0 [] = some 1 := by
  refine ⟨spotOn_eq_mass g f k n kd hm, fun h => ?_, ?_⟩
  · rw [spotOn_eq_mass g f k n kd hm, specBinomMass_eq_zero _ _ _ h]
  · simp [Game.spot_on_equation, scipyBinom]

/-- C6 witness: two dice known out of three, one of them the face; the
probability of exactly one more is (5/6). -/
theorem c6_spot_on_probability_witness :
    gProb.spot_on_equation 2 1 3 [2, 5] =
      some (specBinomMass gProb.dice_size (1 - ([2, 5] : List ℤ).count 2)
        (3 - ([2, 5] : List ℤ).length)) :=
  (c6_spot_on_probability gProb 2 1 3 [2, 5] (by decide) (by decide)).1

/-- C6 counterexample: with the known-dice list longer than the pool the
adjusted q (0) exceeds the adjusted m (-1), where the claim demands the
result 0; the code instead hands a negative pool to scipy binom, which
yields NaN. -/
theorem c6_nan_on_long_known_list :
    gProb.spot_on_equation 1 0 0 [2] = none ∧
    gProb.spot_on_equation 1 0 0 [2] ≠ some 0 := by decide

/-- C7 (amended): provided the known-dice list is no longer than the pool,
bet_equation returns the sum of the spot-on binomial mass for exactly i of
the m unknown dice, for i from the adjusted count q to the adjusted m
inclusive, with the known-dice adjustment applied exactly once. When the
known list is longer than the pool the code returns NaN instead (see the
counterexample). -/
theorem c7_bet_equation_at_least (g : Game) (f k n : ℤ) (kd : List ℤ)
    (_hs : 2 ≤ g.dice_size) (hm : (kd.length : ℤ) ≤ n) :
    g.bet_equation f k n kd =
      some (specAtLeast g.dice_size (k - kd.count f) (n - kd.length)) :=
  betEq_eq_specAtLeast g f k n kd hm

/-- C7 witness: the at-least probability for the concrete query, as the
sum of masses from the adjusted count 0 to the adjusted pool 1. -/
theorem c7_bet_equation_at_least_witness :
    gProb.bet_equation 2 1 3 [2, 5] =
      some (specAtLeast gProb.dice_size (1 - ([2, 5] : List ℤ).count 2)
        (3 - ([2, 5] : List ℤ).length)) :=
  c7_bet_equation_at_least gProb 2 1 3 [2, 5] (by decide) (by decide)

/-- C7 counterexample: with the known-dice list longer than the pool the
code returns NaN, not the claimed sum of masses (which is 0 here). -/
theorem c7_nan_on_long_known_list :
    gProb.bet_equation 1 0 0 [1] = none ∧
    gProb.bet_equation 1 0 0 [1] ≠
      some (specAtLeast gProb.dice_size (0 - ([1] : List ℤ).count 1)
        (0 - ([1] : List ℤ).length)) := by decide

theorem dip_of_idLens_remove (g g2 : Game) (i : ℕ)
    (hpw : g.players.Pairwise (fun a b => a.id ≠ b.id))
    (hmem : i ∈ g.players.map Player.id)
    (hne : ∀ p ∈ g.players, p.dice ≠ [])
    (h : idLens g2.players =
      g.players.map (fun p => (p.id, if p.id = i then p.dice.length - 1 else p.dice.length))) :
    g2.dice_in_play = g.dice_in_play - 1 := by
  rw [dip_eq_sum g2, h, List.map_map]
  rw [show g.players.map (Prod.snd ∘ fun p =>
      (p.id, if p.id = i then p.dice.length - 1 else p.dice.length)) =
      g.players.map (fun p => if p.id = i then p.dice.length - 1 else p.dice.length) from
    List.map_congr_left (fun p _ => rfl)]
  rw [sum_lens_remove g.players i hpw hmem hne]
  rfl

/-- C1 (confirmed): with an active bet, a current and a previous player
(all players holding at least one die), call_bluff removes one die from
the current player and returns false when the pool satisfies the bet, and
removes one die from the previous player and returns true otherwise; in
either branch exactly one die is removed in total and the round reset that
follows preserves every hand size and clears the bet. -/
theorem c1_call_bluff_resolution (g : Game) (supply : ℕ → ℤ) (k : ℕ) (bet : Bet) (cid pid : ℕ)
    (hbet : g.current_bet = some bet)
    (hcur : g.current_player = some cid)
    (hprev : g.previous_player = some pid)
    (hcmem : cid ∈ g.players.map Player.id)
    (hpmem : pid ∈ g.players.map Player.id)
    (hpw : g.players.Pairwise (fun a b => a.id ≠ b.id))
    (hne : ∀ p ∈ g.players, p.dice ≠ []) :
    ((bet.amount ≤ (g.countFace bet.face : ℤ) →
        (g.call_bluff supply k).1 = .ok false ∧
        idLens (g.call_bluff supply k).2.1.players =
          g.players.map (fun p => (p.id, if p.id = cid then p.dice.length - 1 else p.dice.length)) ∧
        (g.call_bluff supply k).2.1.dice_in_play = g.dice_in_play - 1) ∧
     ((g.countFace bet.face : ℤ) < bet.amount →
        (g.call_bluff supply k).1 = .ok true ∧
        idLens (g.call_bluff supply k).2.1.players =
          g.players.map (fun p => (p.id, if p.id = pid then p.dice.length - 1 else p.dice.length)) ∧
        (g.call_bluff supply k).2.1.dice_in_play = g.dice_in_play - 1) ∧
     (g.call_bluff supply k).2.1.current_bet = none) := by
  by_cases hcheck : g.check_bet bet = true
  · have hval : g.call_bluff supply k = (.ok false,
        (Game.reset { g with players := mapRemoveDie g.players cid } supply k).1,
        (Game.reset { g with players := mapRemoveDie g.players cid } supply k).2) := by
      simp only [Game.call_bluff, hbet, hcur, removeDieById_eq g.players cid hpw hne,
        if_pos hcheck]
    have hlens : idLens (g.call_bluff supply k).2.1.players =
        g.players.map (fun p => (p.id, if p.id = cid then p.dice.length - 1 else p.dice.length)) := by
      rw [hval]
      simp only [Game.reset]
      rw [idLens_rollAll, idLens_mapRemoveDie]
    refine ⟨fun _ => ⟨by rw [hval], hlens, ?_⟩, fun h2 => ?_, by rw [hval]; rfl⟩
    · exact dip_of_idLens_remove g _ cid hpw hcmem hne hlens
    · exfalso
      simp only [Game.check_bet, decide_eq_true_eq] at hcheck
      have : (g.countFace bet.face : ℤ) = (g.all_dice.count bet.face : ℤ) := rfl
      omega
  · have hval : g.call_bluff supply k = (.ok true,
        (Game.reset { g with players := mapRemoveDie g.players pid } supply k).1,
        (Game.reset { g with players := mapRemoveDie g.players pid } supply k).2) := by
      simp only [Game.call_bluff, hbet, hprev, removeDieById_eq g.players pid hpw hne,
        if_neg hcheck]
    have hlens : idLens (g.call_bluff supply k).2.1.players =
        g.players.map (fun p => (p.id, if p.id = pid then p.dice.length - 1 else p.dice.length)) := by
      rw [hval]
      simp only [Game.reset]
      rw [idLens_rollAll, idLens_mapRemoveDie]
    refine ⟨fun h2 => ?_, fun _ => ⟨by rw [hval], hlens, ?_⟩, by rw [hval]; rfl⟩
    · exfalso
      simp only [Game.check_bet, decide_eq_true_eq] at hcheck
      have : (g.countFace bet.face : ℤ) = (g.all_dice.count bet.face : ℤ) := rfl
      omega
    · exact dip_of_idLens_remove g _ pid hpw hpmem hne hlens

/-- C1 witness: pool [3,3,3,4] against a bet of two 3s; the challenge is
wrong, the current player (id 1) loses one die, one die is gone in total,
and the bet is cleared. -/
theorem c1_call_bluff_resolution_witness :
    ((2 : ℤ) ≤ (gBluff.countFace 3 : ℤ) ∧
      (gBluff.call_bluff supplyOne 0).1 = .ok false ∧
      idLens (gBluff.call_bluff supplyOne 0).2.1.players =
        gBluff.players.map (fun p => (p.id, if p.id = 1 then p.dice.length - 1 else p.dice.length)) ∧
      (gBluff.call_bluff supplyOne 0).2.1.dice_in_play = gBluff.dice_in_play - 1) ∧
    (gBluff.call_bluff supplyOne 0).2.1.current_bet = none := by
  have h := c1_call_bluff_resolution gBluff supplyOne 0 ⟨2, 3⟩ 1 0 rfl rfl rfl
    (by decide) (by decide) (by decide) (by decide)
  exact ⟨⟨by decide, h.1 (by decide)⟩, h.2.2⟩

/-- C2 (confirmed): with an active bet and a current player (all players
holding at least one die), call_spot_on removes one die from every player
other than the current one and returns true when the pool count is exactly
the bet amount, and removes one die from the current player alone and
returns false otherwise; the reset that follows preserves the resulting
hand sizes and clears the bet, and no mix of the two removals can occur. -/
theorem c2_call_spot_on_resolution (g : Game) (supply : ℕ → ℤ) (k : ℕ) (bet : Bet) (cid : ℕ)
    (hbet : g.current_bet = some bet)
    (hcur : g.current_player = some cid)
    (_hcmem : cid ∈ g.players.map Player.id)
    (hpw : g.players.Pairwise (fun a b => a.id ≠ b.id))
    (hne : ∀ p ∈ g.players, p.dice ≠ []) :
    (((g.countFace bet.face : ℤ) = bet.amount →
        (g.call_spot_on supply k).1 = .ok true ∧
        idLens (g.call_spot_on supply k).2.1.players =
          g.players.map (fun p => (p.id, if p.id = cid then p.dice.length else p.dice.length - 1))) ∧
     ((g.countFace bet.face : ℤ) ≠ bet.amount →
        (g.call_spot_on supply k).1 = .ok false ∧
        idLens (g.call_spot_on supply k).2.1.players =
          g.players.map (fun p => (p.id, if p.id = cid then p.dice.length - 1 else p.dice.length))) ∧
     (g.call_spot_on supply k).2.1.current_bet = none) := by
  by_cases hcheck : g.check_spot_on bet = true
  · have hval : g.call_spot_on supply k = (.ok true,
        (Game.reset { g with players := mapRemoveExcept g.players (some cid) } supply k).1,
        (Game.reset { g with players := mapRemoveExcept g.players (some cid) } supply k).2) := by
      simp only [Game.call_spot_on, hbet, hcur, if_pos hcheck,
        removeDieAllExcept_eq g.players (some cid) hne]
    have hlens : idLens (g.call_spot_on supply k).2.1.players =
        g.players.map (fun p => (p.id, if p.id = cid then p.dice.length else p.dice.length - 1)) := by
      rw [hval]
      simp only [Game.reset]
      rw [idLens_rollAll, idLens_mapRemoveExcept]
    refine ⟨fun _ => ⟨by rw [hval], hlens⟩, fun h2 => ?_, by rw [hval]; rfl⟩
    exfalso
    simp only [Game.check_spot_on, decide_eq_true_eq] at hcheck
    have : (g.countFace bet.face : ℤ) = (g.all_dice.count bet.face : ℤ) := rfl
    omega
  · have hval : g.call_spot_on supply k = (.ok false,
        (Game.reset { g with players := mapRemoveDie g.players cid } supply k).1,
        (Game.reset { g with players := mapRemoveDie g.players cid } supply k).2) := by
      simp only [Game.call_spot_on, hbet, hcur, if_neg hcheck,
        removeDieById_eq g.players cid hpw hne]
    have hlens : idLens (g.call_spot_on supply k).2.1.players =
        g.players.map (fun p => (p.id, if p.id = cid then p.dice.length - 1 else p.dice.length)) := by
      rw [hval]
      simp only [Game.reset]
      rw [idLens_rollAll, idLens_mapRemoveDie]
    refine ⟨fun h2 => ?_, fun _ => ⟨by rw [hval], hlens⟩, by rw [hval]; rfl⟩
    exfalso
    simp only [Game.check_spot_on, decide_eq_true_eq] at hcheck
    have : (g.countFace bet.face : ℤ) = (g.all_dice.count bet.face : ℤ) := rfl
    omega

/-- C2 witness: pool [2,5,6], bet one 2, exactly one 2 present: the two
players other than the current one (id 0) each lose their die, the call
returns true and the bet is cleared. -/
theorem c2_call_spot_on_resolution_witness :
    ((gSpot.countFace 2 : ℤ) = 1 ∧
      (gSpot.call_spot_on supplyOne 0).1 = .ok true ∧
      idLens (gSpot.call_spot_on supplyOne 0).2.1.players =
        gSpot.players.map (fun p => (p.id, if p.id = 0 then p.dice.length else p.dice.length - 1))) ∧
    (gSpot.call_spot_on supplyOne 0).2.1.current_bet = none := by
  have h := c2_call_spot_on_resolution gSpot supplyOne 0 ⟨1, 2⟩ 0 rfl rfl
    (by decide) (by decide) (by decide)
  exact ⟨⟨by decide, h.1 (by decide)⟩, h.2.2⟩

theorem rollAll_length_eq (ps : List Player) (s : ℕ → ℤ) (k : ℕ) :
    (rollAll ps s k).1.length = ps.length := by
  have h := congrArg List.length (idLens_rollAll ps s k)
  simpa [idLens, List.length_map] using h

/-- C9 (amended): provided the rotation is non-empty and every player
holds at least one die (and hence no mid-loop IndexError can fire), each
mutator either succeeds or fails leaving the state exactly as it was;
remove_lost_players and reset cannot fail at all. Without that proviso
call_spot_on can fail mid-loop with earlier removals already applied (see
the counterexample), so the claim as stated is false. -/
theorem c9_mutator_atomicity (g : Game) (supply : ℕ → ℤ) (k : ℕ) (b : Bet)
    (hply : g.players ≠ [])
    (hne : ∀ p ∈ g.players, p.dice ≠ []) :
    ((isErr (g.first_bet b).1 = true → (g.first_bet b).2 = g) ∧
     (isErr (g.place_bet b).1 = true → (g.place_bet b).2 = g) ∧
     (isErr (g.next_player).1 = true → (g.next_player).2 = g) ∧
     (isErr (g.setup supply k).1 = true → (g.setup supply k).2.1 = g) ∧
     (isErr (g.call_bluff supply k).1 = true → (g.call_bluff supply k).2.1 = g) ∧
     (isErr (g.call_spot_on supply k).1 = true → (g.call_spot_on supply k).2.1 = g)) := by
  refine ⟨?_, ?_, ?_, ?_, ?_, ?_⟩
  · simp only [Game.first_bet]
    split
    · intro _; rfl
    · split
      · intro _; rfl
      · intro h; simp [isErr] at h
  · simp only [Game.place_bet]
    split
    · intro _; rfl
    · split
      · intro _; rfl
      · split
        · intro _; rfl
        · split
          · intro h; simp [isErr] at h
          · intro _; rfl
  · simp only [Game.next_player]
    cases hp : g.players with
    | nil => exact absurd hp hply
    | cons p rest => intro h; simp [isErr] at h
  · simp only [Game.setup, Game.next_player]
    cases hr : (rollAll g.players supply k).1 with
    | nil =>
      exfalso
      have := rollAll_length_eq g.players supply k
      rw [hr] at this
      exact hply (List.eq_nil_of_length_eq_zero this.symm)
    | cons p rest => intro h; simp [isErr] at h
  · cases hb : g.current_bet with
    | none => simp only [Game.call_bluff, hb]; intro _; trivial
    | some bet =>
      by_cases hcheck : g.check_bet bet = true
      · cases hc : g.current_player with
        | none => simp only [Game.call_bluff, hb, if_pos hcheck, hc]; intro _; trivial
        | some cid =>
          obtain ⟨qs, hqs⟩ := removeDieById_ok g.players cid hne
          simp only [Game.call_bluff, hb, if_pos hcheck, hc, hqs]
          intro h; simp [isErr] at h
      · cases hc : g.previous_player with
        | none => simp only [Game.call_bluff, hb, if_neg hcheck, hc]; intro _; trivial
        | some pid =>
          obtain ⟨qs, hqs⟩ := removeDieById_ok g.players pid hne
          simp only [Game.call_bluff, hb, if_neg hcheck, hc, hqs]
          intro h; simp [isErr] at h
  · cases hb : g.current_bet with
    | none => simp only [Game.call_spot_on, hb]; intro _; trivial
    | some bet =>
      by_cases hcheck : g.check_spot_on bet = true
      · simp only [Game.call_spot_on, hb, if_pos hcheck,
          removeDieAllExcept_eq g.players g.current_player hne]
        intro h; simp [isErr] at h
      · cases hc : g.current_player with
        | none => simp only [Game.call_spot_on, hb, if_neg hcheck, hc]; intro _; trivial
        | some cid =>
          obtain ⟨qs, hqs⟩ := removeDieById_ok g.players cid hne
          simp only [Game.call_spot_on, hb, if_neg hcheck, hc, hqs]
          intro h; simp [isErr] at h

/-- C9 witness: the amended atomicity at a concrete two-player state. -/
theorem c9_mutator_atomicity_witness :
    ((isErr (gBluff.first_bet ⟨9, 3⟩).1 = true → (gBluff.first_bet ⟨9, 3⟩).2 = gBluff) ∧
     (isErr (gBluff.place_bet ⟨9, 3⟩).1 = true → (gBluff.place_bet ⟨9, 3⟩).2 = gBluff) ∧
     (isErr (gBluff.next_player).1 = true → (gBluff.next_player).2 = gBluff) ∧
     (isErr (gBluff.setup supplyOne 0).1 = true → (gBluff.setup supplyOne 0).2.1 = gBluff) ∧
     (isErr (gBluff.call_bluff supplyOne 0).1 = true → (gBluff.call_bluff supplyOne 0).2.1 = gBluff) ∧
     (isErr (gBluff.call_spot_on supplyOne 0).1 = true → (gBluff.call_spot_on supplyOne 0).2.1 = gBluff)) :=
  c9_mutator_atomicity gBluff supplyOne 0 ⟨9, 3⟩ (by decide) (by decide)

/-- C9 counterexample: in a state where another player after the first
victim has an empty hand, the spot-on reward loop raises IndexError after
already removing a die from an earlier player, so the failing call leaves
a changed state behind. -/
theorem c9_spot_on_partial_mutation :
    isErr (gPartial.call_spot_on supplyOne 0).1 = true ∧
    (gPartial.call_spot_on supplyOne 0).2.1 ≠ gPartial := by decide
